import Mathlib

/-!
# Verification of `src/util.ts` (setup-java utility module)

This file gives a shallow embedding of the version-handling utilities of the
repository's `src/util.ts` and proves/refutes the specification claims about
them.

`util.ts` delegates heavily to the `semver` npm package (node-semver).  That
library is an external dependency whose behaviour determines the results of
`isVersionSatisfies`, `getVersionFromFileContent`, … so the relevant part of
node-semver (strict parsing per its `FULL` regular expression, `compareBuild`,
range parsing/satisfaction with `includePrerelease = false`, `coerce`,
`validRange`, `major`) is embedded here as executable Lean functions that follow
the node-semver sources.  Known idealisations (documented at the definitions):
identifier comparison uses exact naturals where JavaScript uses IEEE doubles
(differences only beyond 2^53), the JavaScript `\s`/trim classes are modelled by
their ASCII subset, and range syntax in which `=`/`v`/whitespace padding occurs
*inside* a hyphen-range operand is not modelled.  JavaScript exceptions are
modelled by `JsResult.thrown`.
-/

namespace SetupJava

/-- Result of a JavaScript computation that can throw: either a value or a
thrown exception. -/
inductive JsResult (α : Type) where
  | ok (val : α)
  | thrown
deriving Repr, DecidableEq

/-- ASCII subset of the JavaScript `\s` character class (space, tab, LF, CR,
vertical tab, form feed).  JavaScript additionally includes Unicode space
characters, which never occur in the inputs considered here. -/
def isSpaceJS (c : Char) : Bool :=
  c = ' ' || c = '\t' || c = '\n' || c = '\r' || c = '\x0b' || c = '\x0c'

/-- ASCII decimal digit test (`[0-9]`). -/
def isDigitC (c : Char) : Bool :=
  '0' ≤ c && c ≤ '9'

/-- Character class `[0-9A-Za-z-]` of semver prerelease/build identifiers. -/
def isIdChar (c : Char) : Bool :=
  isDigitC c || ('a' ≤ c && c ≤ 'z') || ('A' ≤ c && c ≤ 'Z') || c = '-'

/-- Numeric value of a digit string (most significant first). -/
def digitsToNat (ds : List Char) : Nat :=
  ds.foldl (fun n c => n * 10 + (c.toNat - 48)) 0

/-- `listStartsWith cs ps` : does `cs` start with prefix `ps`? -/
def listStartsWith : List Char → List Char → Bool
  | _, [] => true
  | [], _ :: _ => false
  | c :: cs, p :: ps => c = p && listStartsWith cs ps

/-- `String.startsWith`, modelled over the character lists. -/
def strStartsWith (s p : String) : Bool :=
  listStartsWith s.data p.data

/-- `String.endsWith`, modelled over the character lists. -/
def strEndsWith (s p : String) : Bool :=
  listStartsWith s.data.reverse p.data.reverse

/-- JavaScript `s.substring(n)` for a character offset `n`. -/
def strDropChars (s : String) (n : Nat) : String :=
  String.mk (s.data.drop n)

/-- JavaScript `String.prototype.trim` (ASCII subset of its space class). -/
def jsTrim (cs : List Char) : List Char :=
  ((cs.dropWhile isSpaceJS).reverse.dropWhile isSpaceJS).reverse

/-- JavaScript `s.split(sep)` for a one-character separator `sep`; always
returns at least one (possibly empty) piece. -/
def splitOnChar (sep : Char) : List Char → List Char → List (List Char)
  | [], cur => [cur.reverse]
  | c :: tl, cur =>
    if c = sep then cur.reverse :: splitOnChar sep tl []
    else splitOnChar sep tl (c :: cur)

/-- JavaScript `s.split('||')`: split on (leftmost, non-overlapping)
occurrences of the two-character separator `||`. -/
def splitOrOr : List Char → List Char → List (List Char)
  | '|' :: '|' :: tl, cur => cur.reverse :: splitOrOr tl []
  | c :: tl, cur => splitOrOr tl (c :: cur)
  | [], cur => [cur.reverse]

/-- Split into maximal runs of non-whitespace characters (the token list of a
range set; equivalent to node-semver's `split(' ')`/`split(/\s+/)` pipeline on
a trimmed range). -/
def splitWS : List Char → List Char → List (List Char)
  | [], cur => if cur.isEmpty then [] else [cur.reverse]
  | c :: tl, cur =>
    if isSpaceJS c then
      if cur.isEmpty then splitWS tl [] else cur.reverse :: splitWS tl []
    else splitWS tl (c :: cur)

/-- Join strings with a separator (JavaScript `Array.prototype.join`). -/
def joinSep (sep : String) : List String → String
  | [] => ""
  | [x] => x
  | x :: xs => x ++ sep ++ joinSep sep xs

/-- The prefix of `s` before the first `'-'` — JavaScript `s.split('-')[0]`. -/
def splitDashHead (s : String) : String :=
  String.mk (s.data.takeWhile (fun c => c ≠ '-'))

/-!
## node-semver: strict version parsing

`SemVer` is the parsed form of a semantic version as built by node-semver's
`SemVer` class from its strict `FULL` regular expression
`^v?(0|[1-9]\d*)\.(0|[1-9]\d*)\.(0|[1-9]\d*)(-pre)?(\+build)?$` applied to the
trimmed input.  Prerelease and build identifiers are kept as the matched
strings (node-semver stores small numeric prerelease identifiers as numbers;
comparison goes through `compareIdentifiers` either way, so the string
representation is faithful for strict-parsed versions).
-/

/-- `Number.MAX_SAFE_INTEGER`; node-semver rejects core version numbers above
this bound. -/
def maxSafeInteger : Nat := 9007199254740991

/-- node-semver `MAX_LENGTH`: version strings longer than 256 characters are
rejected. -/
def maxVersionLength : Nat := 256

/-- A parsed semantic version (node-semver `SemVer` class). -/
structure SemVer where
  major : Nat
  minor : Nat
  patch : Nat
  prerelease : List String
  build : List String
deriving Repr, DecidableEq

/-- Parse a semver `NUMERICIDENTIFIER` (`0|[1-9]\d*`) at the head of the
input: a maximal digit run with no leading zero, bounded by
`Number.MAX_SAFE_INTEGER`.  Returns the value and the rest. -/
def parseNumericIdent (cs : List Char) : Option (Nat × List Char) :=
  let ds := cs.takeWhile isDigitC
  let rest := cs.drop ds.length
  match ds with
  | [] => none
  | [c] => some (c.toNat - 48, rest)
  | c :: _ :: _ =>
    if c = '0' then none
    else
      let n := digitsToNat ds
      if n > maxSafeInteger then none else some (n, rest)

/-- Validity of a prerelease identifier (semver `PRERELEASEIDENTIFIER`):
a nonempty `[0-9A-Za-z-]` run that, when fully numeric, has no leading zero. -/
def isValidPreId (cs : List Char) : Bool :=
  if cs.all isDigitC then
    match cs with
    | [] => false
    | [_] => true
    | c :: _ :: _ => c ≠ '0'
  else true

/-- Validity of a build identifier (semver `BUILDIDENTIFIER`): any nonempty
`[0-9A-Za-z-]` run. -/
def isValidBuildId (cs : List Char) : Bool :=
  !cs.isEmpty

/-- Parse a non-empty dot-separated identifier list (the `-pre` / `+build`
tails of a version).  A dot is consumed only when another identifier follows,
matching the regex backtracking of `(?:\.…)*`.  `fuel` is an upper bound on
recursion depth (callers pass `cs.length + 1`, each step consumes at least one
character). -/
def parseIdListAux (validId : List Char → Bool) : Nat → List Char →
    Option (List String × List Char)
  | 0, _ => none
  | fuel + 1, cs =>
    let run := cs.takeWhile isIdChar
    if run.isEmpty then none
    else if !validId run then none
    else
      let rest := cs.drop run.length
      match rest with
      | '.' :: tl =>
        if (tl.takeWhile isIdChar).isEmpty then
          some ([String.mk run], rest)
        else
          match parseIdListAux validId fuel tl with
          | some (ids, r) => some (String.mk run :: ids, r)
          | none => none
      | _ => some ([String.mk run], rest)

/-- Entry point for `parseIdListAux` with sufficient fuel. -/
def parseIdList (validId : List Char → Bool) (cs : List Char) :
    Option (List String × List Char) :=
  parseIdListAux validId (cs.length + 1) cs

/-- Parse the whole (already trimmed) character list as a strict semantic
version, per node-semver's anchored `FULL` regular expression (optional
leading `v`). -/
def parseSemVerCore (cs₀ : List Char) : Option SemVer :=
  let cs := match cs₀ with
    | 'v' :: tl => tl
    | _ => cs₀
  match parseNumericIdent cs with
  | none => none
  | some (maj, cs) =>
    match cs with
    | '.' :: cs =>
      match parseNumericIdent cs with
      | none => none
      | some (min, cs) =>
        match cs with
        | '.' :: cs =>
          match parseNumericIdent cs with
          | none => none
          | some (pat, cs) =>
            let preParsed : Option (List String × List Char) :=
              match cs with
              | '-' :: tl => parseIdList isValidPreId tl
              | _ => some ([], cs)
            match preParsed with
            | none => none
            | some (pre, cs) =>
              let buildParsed : Option (List String × List Char) :=
                match cs with
                | '+' :: tl => parseIdList isValidBuildId tl
                | _ => some ([], cs)
              match buildParsed with
              | none => none
              | some (bld, cs) =>
                if cs.isEmpty then
                  some ⟨maj, min, pat, pre, bld⟩
                else none
        | _ => none
    | _ => none

/-- node-semver `parse`/`valid` (strict options): trim, enforce the maximum
length, and match the anchored `FULL` pattern.  `none` models both a `null`
result of `parse` and the `SemVer` constructor throwing. -/
def parseSemVer (s : String) : Option SemVer :=
  if s.data.length > maxVersionLength then none
  else parseSemVerCore (jsTrim s.data)

/-- `SemVer.prototype.format`/`toString`: `M.m.p` plus `-pre`; build metadata
is not included. -/
def semverToString (v : SemVer) : String :=
  toString v.major ++ "." ++ toString v.minor ++ "." ++ toString v.patch ++
    (if v.prerelease.isEmpty then "" else "-" ++ joinSep "." v.prerelease)

/-!
## node-semver: comparison
-/

/-- node-semver `compareIdentifiers`: identifiers that are both fully numeric
are compared as numbers, a numeric identifier is smaller than a non-numeric
one, and otherwise the strings are compared lexicographically.  (JavaScript
converts with `+id`, an IEEE double; this model compares the exact naturals,
which agrees below 2^53.) -/
def compareIdentifiers (a b : String) : Ordering :=
  let anum := !a.data.isEmpty && a.data.all isDigitC
  let bnum := !b.data.isEmpty && b.data.all isDigitC
  if anum && bnum then compare (digitsToNat a.data) (digitsToNat b.data)
  else if a = b then .eq
  else if anum then .lt
  else if bnum then .gt
  else compare a b

/-- The identifier-list walk shared by `SemVer.prototype.comparePre` and
`SemVer.prototype.compareBuild`: element-wise, a missing element is smaller,
equal strings continue, and the first difference is decided by
`compareIdentifiers` (whose result is returned even when it is `eq`). -/
def compareIdLoop : List String → List String → Ordering
  | [], [] => .eq
  | _ :: _, [] => .gt
  | [], _ :: _ => .lt
  | a :: as, b :: bs => if a = b then compareIdLoop as bs else compareIdentifiers a b

/-- `SemVer.prototype.compareMain`: major, then minor, then patch. -/
def compareMain (a b : SemVer) : Ordering :=
  match compare a.major b.major with
  | .eq =>
    match compare a.minor b.minor with
    | .eq => compare a.patch b.patch
    | o => o
  | o => o

/-- `SemVer.prototype.comparePre`: a version with prerelease identifiers
precedes one without; otherwise the identifier lists are compared. -/
def comparePre (a b : SemVer) : Ordering :=
  match a.prerelease, b.prerelease with
  | _ :: _, [] => .lt
  | [], _ :: _ => .gt
  | [], [] => .eq
  | _ :: _, _ :: _ => compareIdLoop a.prerelease b.prerelease

/-- `SemVer.prototype.compare` (semver precedence; build metadata ignored). -/
def compareSemVer (a b : SemVer) : Ordering :=
  match compareMain a b with
  | .eq => comparePre a b
  | o => o

/-- node-semver `compareBuild(a, b)`: semver precedence, with ties broken by
the build identifier lists. -/
def compareBuildFull (a b : SemVer) : Ordering :=
  match compareSemVer a b with
  | .eq => compareIdLoop a.build b.build
  | o => o

/-!
## node-semver: ranges (strict mode, `includePrerelease = false`)

A range is parsed to a disjunction of comparator sets.  Each token of a set is
desugared exactly as node-semver's `replaceCarets` / `replaceTildes` /
`replaceXRanges` / `replaceStars` / `replaceGTE0` rewrite pipeline does, and
hyphen ranges (`a - b` as the whole set) as `hyphenReplace` does.  Not
modelled: `=`/`v`/whitespace padding *inside* a hyphen-range operand (e.g.
`"= 1.2.3 - 2"`), which node-semver's `[v=\s]*` allows across token
boundaries.
-/

/-- A single comparator: the always-true comparator (node-semver `ANY`) or an
operator applied to a parsed version. -/
inductive Comparator where
  | any
  | cmp (op : Ordering) (strict : Bool) (sv : SemVer)
deriving Repr, DecidableEq

/-- Comparator constructors: `Ordering.lt`/`gt` with `strict = true` are
`<`/`>`, with `strict = false` they are `<=`/`>=`; `Ordering.eq` is `=`. -/
def Comparator.lt (sv : SemVer) : Comparator := .cmp .lt true sv

def Comparator.lte (sv : SemVer) : Comparator := .cmp .lt false sv

def Comparator.gt (sv : SemVer) : Comparator := .cmp .gt true sv

def Comparator.gte (sv : SemVer) : Comparator := .cmp .gt false sv

def Comparator.eqc (sv : SemVer) : Comparator := .cmp .eq true sv

/-- `Comparator.prototype.test`: `ANY` accepts everything, otherwise the
version is compared against the comparator's version (`cmp`). -/
def Comparator.test (c : Comparator) (v : SemVer) : Bool :=
  match c with
  | .any => true
  | .cmp op strict sv =>
    match compareSemVer v sv, op, strict with
    | .eq, .eq, _ => true
    | .eq, .lt, false => true
    | .eq, .gt, false => true
    | .lt, .lt, _ => true
    | .gt, .gt, _ => true
    | _, _, _ => false

/-- An `X` in an x-range position (`x`, `X`, `*`) or a number. -/
inductive XId where
  | star
  | num (n : Nat)
deriving Repr, DecidableEq

/-- A parsed `XRANGEPLAIN` operand: up to three version positions, plus
prerelease/build identifiers (only present when all three are numbers). -/
structure XPartial where
  xM : XId
  xm : Option XId
  xp : Option XId
  pre : List String
  build : List String
deriving Repr, DecidableEq

/-- Skip the `[v=\s]*` prefix of `XRANGEPLAIN` (tokens contain no spaces). -/
def skipVEq : List Char → List Char
  | c :: tl => if c = 'v' || c = '=' then skipVEq tl else c :: tl
  | [] => []

/-- Parse one `XRANGEIDENTIFIER` (`x`, `X`, `*`, or a numeric identifier). -/
def parseXId (cs : List Char) : Option (XId × List Char) :=
  match cs with
  | 'x' :: tl => some (.star, tl)
  | 'X' :: tl => some (.star, tl)
  | '*' :: tl => some (.star, tl)
  | _ =>
    match parseNumericIdent cs with
    | some (n, rest) => some (.num n, rest)
    | none => none

/-- Parse a full `XRANGEPLAIN` operand, requiring the whole token to be
consumed (the node-semver patterns are anchored). -/
def parseXFull (cs₀ : List Char) : Option XPartial :=
  let cs := skipVEq cs₀
  match parseXId cs with
  | none => none
  | some (x1, rest) =>
    match rest with
    | '.' :: cs =>
      match parseXId cs with
      | none => none
      | some (x2, rest) =>
        match rest with
        | '.' :: cs =>
          match parseXId cs with
          | none => none
          | some (x3, rest) =>
            let preParsed : Option (List String × List Char) :=
              match rest with
              | '-' :: tl => parseIdList isValidPreId tl
              | _ => some ([], rest)
            match preParsed with
            | none => none
            | some (pre, rest) =>
              let buildParsed : Option (List String × List Char) :=
                match rest with
                | '+' :: tl => parseIdList isValidBuildId tl
                | _ => some ([], rest)
              match buildParsed with
              | none => none
              | some (bld, rest) =>
                if rest.isEmpty then some ⟨x1, some x2, some x3, pre, bld⟩
                else none
        | [] => some ⟨x1, some x2, none, [], []⟩
        | _ => none
    | [] => some ⟨x1, none, none, [], []⟩
    | _ => none

/-- Is this x-range position an `x` (absent or explicitly `x`/`X`/`*`)? -/
def isXPos : Option XId → Bool
  | none => true
  | some .star => true
  | some (.num _) => false

/-- The number at an x-range position (`0` when absent — only used when the
position is known not to be an x). -/
def xNum : Option XId → Nat
  | some (.num n) => n
  | _ => 0

/-- Build a comparator, modelling the `SemVer` constructor's
`MAX_SAFE_INTEGER` bound (a violation throws, making the range invalid). -/
def mkComp (c : Comparator) : Option (List Comparator) :=
  match c with
  | .any => some [Comparator.any]
  | .cmp _ _ sv =>
    if sv.major ≤ maxSafeInteger && sv.minor ≤ maxSafeInteger &&
        sv.patch ≤ maxSafeInteger then some [c] else none

/-- Combine the `Option`-valued comparator pieces of one token. -/
def mkComp2 (a b : Comparator) : Option (List Comparator) :=
  match mkComp a, mkComp b with
  | some x, some y => some (x ++ y)
  | _, _ => none

/-- The operator prefix of a range token (node-semver `gtlt`, where `''` and
`=` behave identically). -/
inductive GtLt where
  | e
  | ltOp
  | gtOp
  | lteOp
  | gteOp
deriving Repr, DecidableEq

/-- node-semver `replaceCaret` on a `^`-token (strict,
`includePrerelease = false`). -/
def caretComps (p : XPartial) : Option (List Comparator) :=
  match p.xM with
  | .star => some [Comparator.any]
  | .num M =>
    if isXPos p.xm then
      mkComp2 (.gte ⟨M, 0, 0, [], []⟩) (.lt ⟨M + 1, 0, 0, ["0"], []⟩)
    else
      let m := xNum p.xm
      if isXPos p.xp then
        if M = 0 then
          mkComp2 (.gte ⟨0, m, 0, [], []⟩) (.lt ⟨0, m + 1, 0, ["0"], []⟩)
        else
          mkComp2 (.gte ⟨M, m, 0, [], []⟩) (.lt ⟨M + 1, 0, 0, ["0"], []⟩)
      else
        let pt := xNum p.xp
        if M = 0 then
          if m = 0 then
            mkComp2 (.gte ⟨0, 0, pt, p.pre, []⟩) (.lt ⟨0, 0, pt + 1, ["0"], []⟩)
          else
            mkComp2 (.gte ⟨0, m, pt, p.pre, []⟩) (.lt ⟨0, m + 1, 0, ["0"], []⟩)
        else
          mkComp2 (.gte ⟨M, m, pt, p.pre, []⟩) (.lt ⟨M + 1, 0, 0, ["0"], []⟩)

/-- node-semver `replaceTilde` on a `~`-token (strict,
`includePrerelease = false`). -/
def tildeComps (p : XPartial) : Option (List Comparator) :=
  match p.xM with
  | .star => some [Comparator.any]
  | .num M =>
    if isXPos p.xm then
      mkComp2 (.gte ⟨M, 0, 0, [], []⟩) (.lt ⟨M + 1, 0, 0, ["0"], []⟩)
    else
      let m := xNum p.xm
      if isXPos p.xp then
        mkComp2 (.gte ⟨M, m, 0, [], []⟩) (.lt ⟨M, m + 1, 0, ["0"], []⟩)
      else
        mkComp2 (.gte ⟨M, m, xNum p.xp, p.pre, []⟩) (.lt ⟨M, m + 1, 0, ["0"], []⟩)

/-- node-semver `replaceXRange` on a plain or `gtlt`-prefixed token (strict,
`includePrerelease = false`). -/
def xrangeComps (gtlt : GtLt) (p : XPartial) : Option (List Comparator) :=
  match p.xM with
  | .star =>
    match gtlt with
    | .gtOp => mkComp (.lt ⟨0, 0, 0, ["0"], []⟩)
    | .ltOp => mkComp (.lt ⟨0, 0, 0, ["0"], []⟩)
    | _ => some [Comparator.any]
  | .num M =>
    let xm := isXPos p.xm
    let xp := isXPos p.xp
    let anyX := xm || xp
    if gtlt ≠ .e && anyX then
      let m := if xm then 0 else xNum p.xm
      match gtlt with
      | .gtOp =>
        if xm then mkComp (.gte ⟨M + 1, 0, 0, [], []⟩)
        else mkComp (.gte ⟨M, m + 1, 0, [], []⟩)
      | .lteOp =>
        if xm then mkComp (.lt ⟨M + 1, 0, 0, ["0"], []⟩)
        else mkComp (.lt ⟨M, m + 1, 0, ["0"], []⟩)
      | .ltOp => mkComp (.lt ⟨M, m, 0, ["0"], []⟩)
      | .gteOp => mkComp (.gte ⟨M, m, 0, [], []⟩)
      | .e => none
    else if xm then
      mkComp2 (.gte ⟨M, 0, 0, [], []⟩) (.lt ⟨M + 1, 0, 0, ["0"], []⟩)
    else if xp then
      let m := xNum p.xm
      mkComp2 (.gte ⟨M, m, 0, [], []⟩) (.lt ⟨M, m + 1, 0, ["0"], []⟩)
    else
      let sv : SemVer := ⟨M, xNum p.xm, xNum p.xp, p.pre, p.build⟩
      match gtlt with
      | .e => mkComp (.eqc sv)
      | .ltOp => mkComp (.lt sv)
      | .gtOp => mkComp (.gt sv)
      | .lteOp => mkComp (.lte sv)
      | .gteOp => mkComp (.gte sv)

/-- node-semver `hyphenReplace` (strict, `includePrerelease = false`) for a
set of exactly `a - b`. -/
def hyphenComps (a b : XPartial) : Option (List Comparator) :=
  let froms : Option (List Comparator) :=
    match a.xM with
    | .star => some []
    | .num M =>
      if isXPos a.xm then mkComp (.gte ⟨M, 0, 0, [], []⟩)
      else if isXPos a.xp then mkComp (.gte ⟨M, xNum a.xm, 0, [], []⟩)
      else mkComp (.gte ⟨M, xNum a.xm, xNum a.xp, a.pre, a.build⟩)
  let tos : Option (List Comparator) :=
    match b.xM with
    | .star => some []
    | .num M =>
      if isXPos b.xm then mkComp (.lt ⟨M + 1, 0, 0, ["0"], []⟩)
      else if isXPos b.xp then mkComp (.lt ⟨M, xNum b.xm + 1, 0, ["0"], []⟩)
      else mkComp (.lte ⟨M, xNum b.xm, xNum b.xp, b.pre, b.build⟩)
  match froms, tos with
  | some f, some t =>
    match f ++ t with
    | [] => some [Comparator.any]
    | l => some l
  | _, _ => none

/-- node-semver `replaceGTE0`: a bare `>=0.0.0` comparator piece becomes the
empty comparator (`ANY`). -/
def gte0Fix (c : Comparator) : Comparator :=
  if c = .gte ⟨0, 0, 0, [], []⟩ then .any else c

/-- node-semver `replaceStars`: remove every (leftmost, non-overlapping)
occurrence of `(<|>)?=?\*` from the token. -/
def starStrip : List Char → List Char
  | '<' :: '=' :: '*' :: r => starStrip r
  | '>' :: '=' :: '*' :: r => starStrip r
  | '<' :: '*' :: r => starStrip r
  | '>' :: '*' :: r => starStrip r
  | '=' :: '*' :: r => starStrip r
  | '*' :: r => starStrip r
  | c :: r => c :: starStrip r
  | [] => []

/-- Final `Comparator` parse of a token none of the x-range rewrites matched:
strip stars (`replaceStars`), then the empty token is `ANY` and otherwise the
token must be `gtlt` + a full strict version (`COMPARATOR` pattern). -/
def parseCompFallback (cs : List Char) : Option (List Comparator) :=
  let stripped := starStrip cs
  if stripped.isEmpty then some [Comparator.any]
  else
    let opRest : GtLt × List Char :=
      match stripped with
      | '>' :: '=' :: tl => (.gteOp, tl)
      | '<' :: '=' :: tl => (.lteOp, tl)
      | '>' :: tl => (.gtOp, tl)
      | '<' :: tl => (.ltOp, tl)
      | '=' :: tl => (.e, tl)
      | tl => (.e, tl)
    match parseSemVerCore opRest.2 with
    | none => none
    | some sv =>
      match opRest.1 with
      | .e => mkComp (.eqc sv)
      | .ltOp => mkComp (.lt sv)
      | .gtOp => mkComp (.gt sv)
      | .lteOp => mkComp (.lte sv)
      | .gteOp => mkComp (.gte sv)

/-- Parse one whitespace-delimited range token (after operator merging) into
its comparators, following node-semver's `parseComparator` rewrite order:
caret, tilde, x-range, then star removal plus plain comparator parse. -/
def parseRangeToken (cs : List Char) : Option (List Comparator) :=
  let viaRewrites : Option (List Comparator) :=
    match cs with
    | '^' :: tl =>
      match parseXFull tl with
      | some p => caretComps p
      | none => none
    | '~' :: '>' :: tl =>
      match parseXFull tl with
      | some p => tildeComps p
      | none => none
    | '~' :: tl =>
      match parseXFull tl with
      | some p => tildeComps p
      | none => none
    | '>' :: '=' :: tl =>
      match parseXFull tl with
      | some p => xrangeComps .gteOp p
      | none => none
    | '<' :: '=' :: tl =>
      match parseXFull tl with
      | some p => xrangeComps .lteOp p
      | none => none
    | '>' :: tl =>
      match parseXFull tl with
      | some p => xrangeComps .gtOp p
      | none => none
    | '<' :: tl =>
      match parseXFull tl with
      | some p => xrangeComps .ltOp p
      | none => none
    | _ =>
      match parseXFull cs with
      | some p => xrangeComps .e p
      | none => none
  match viaRewrites with
  | some l => some l
  | none => parseCompFallback cs

/-- Is the token a bare operator (to be merged with the next token, as the
`COMPARATORTRIM`/`TILDETRIM`/`CARETTRIM` rewrites do)? -/
def isOpToken (cs : List Char) : Bool :=
  match cs with
  | ['<'] => true
  | ['>'] => true
  | ['='] => true
  | ['<', '='] => true
  | ['>', '='] => true
  | ['~'] => true
  | ['~', '>'] => true
  | ['^'] => true
  | _ => false

/-- Merge bare operator tokens with their following token. -/
def mergeOps : List (List Char) → List (List Char)
  | [] => []
  | t :: rest =>
    if isOpToken t then
      match rest with
      | r :: rs => (t ++ r) :: mergeOps rs
      | [] => [t]
    else t :: mergeOps rest

/-- Parse the tokens of one `||`-alternative after the hyphen check. -/
def parseRangeTokens : List (List Char) → Option (List Comparator)
  | [] => some []
  | t :: ts =>
    match parseRangeToken t, parseRangeTokens ts with
    | some cs, some rest => some (cs ++ rest)
    | _, _ => none

/-- Parse one `||`-alternative of a range: trim, tokenize, handle a
whole-set hyphen range, merge operator tokens, desugar each token, and apply
the `>=0.0.0 → ANY` rewrite.  An empty set is the `ANY` comparator. -/
def parseRangeSet (part : List Char) : Option (List Comparator) :=
  let toks := splitWS (jsTrim part) []
  let viaTokens : Option (List Comparator) :=
    match parseRangeTokens (mergeOps toks) with
    | some [] => some [Comparator.any]
    | some l => some l
    | none => none
  match toks with
  | [a, ['-'], b] =>
    match parseXFull a, parseXFull b with
    | some pa, some pb => (hyphenComps pa pb).map (List.map gte0Fix)
    | _, _ => viaTokens.map (List.map gte0Fix)
  | _ => viaTokens.map (List.map gte0Fix)

/-- node-semver `Range` construction: split on `||`, parse every alternative;
any invalid alternative makes the whole range invalid. -/
def parseRangeStr (r : String) : Option (List (List Comparator)) :=
  (splitOrOr r.data []).mapM parseRangeSet

/-- node-semver `testSet`: every comparator must accept the version, and a
prerelease version is only accepted if some non-`ANY` comparator carries a
prerelease with the same `[major, minor, patch]` tuple
(`includePrerelease = false`). -/
def testSet (set : List Comparator) (v : SemVer) : Bool :=
  set.all (fun c => c.test v) &&
    (if v.prerelease.isEmpty then true
     else
       set.any (fun c =>
         match c with
         | .any => false
         | .cmp _ _ sv =>
           !sv.prerelease.isEmpty && sv.major = v.major &&
             sv.minor = v.minor && sv.patch = v.patch))

/-- node-semver `satisfies(version, range)` (strict options): `false` when the
range is invalid or the version does not parse; otherwise true iff some
`||`-alternative accepts the version. -/
def satisfiesB (version range : String) : Bool :=
  match parseRangeStr range with
  | none => false
  | some sets =>
    match parseSemVer version with
    | none => false
    | some v => sets.any (fun set => testSet set v)

/-- node-semver `validRange` (strict options), as a Boolean: does the range
parse? -/
def validRange (r : String) : Bool :=
  (parseRangeStr r).isSome

/-- node-semver `coerce` (no `rtl`): find the leftmost
`(^|[^\d])(\d{1,16})(\.(\d{1,16}))?(\.(\d{1,16}))?($|[^\d])` match, then
strict-parse `major.minor.patch` (missing parts are zero).  Returns the digit
runs of the match. -/
def coerceScan : Bool → List Char → Option (List Char × Option (List Char) × Option (List Char))
  | _, [] => none
  | prevDigit, c :: tl =>
    if isDigitC c && !prevDigit then
      let run := c :: tl.takeWhile isDigitC
      if run.length ≤ 16 then
        let rest := tl.drop (run.length - 1)
        let minorPart : Option (List Char) × List Char :=
          match rest with
          | '.' :: r2 =>
            let run2 := r2.takeWhile isDigitC
            if !run2.isEmpty && run2.length ≤ 16 then (some run2, r2.drop run2.length)
            else (none, rest)
          | _ => (none, rest)
        match minorPart with
        | (none, _) => some (run, none, none)
        | (some m, rest2) =>
          let patchPart : Option (List Char) :=
            match rest2 with
            | '.' :: r3 =>
              let run3 := r3.takeWhile isDigitC
              if !run3.isEmpty && run3.length ≤ 16 then some run3 else none
            | _ => none
          some (run, some m, patchPart)
      else coerceScan true tl
    else coerceScan (isDigitC c) tl

/-- Validity of a coerced digit run under the strict re-parse
(`NUMERICIDENTIFIER`: no leading zeros, within `MAX_SAFE_INTEGER`). -/
def coerceRunValid (run : List Char) : Bool :=
  match run with
  | [] => false
  | [_] => true
  | c :: _ :: _ => c ≠ '0' && digitsToNat run ≤ maxSafeInteger

/-- node-semver `coerce` on a string: `none` when no match is found or the
re-parse of the coerced triple fails. -/
def coerceString (s : String) : Option SemVer :=
  match coerceScan false s.data with
  | none => none
  | some (maj, minor?, patch?) =>
    let minRun := minor?.getD ['0']
    let patRun := patch?.getD ['0']
    if coerceRunValid maj && coerceRunValid minRun && coerceRunValid patRun then
      some ⟨digitsToNat maj, digitsToNat minRun, digitsToNat patRun, [], []⟩
    else none

/-!
## `src/util.ts`
-/

/-- Node `path.basename` (posix): the path component after the last `/`,
with trailing slashes stripped. -/
def basenamePosix (p : String) : String :=
  let stripped := p.data.reverse.dropWhile (fun c => c = '/')
  if stripped.isEmpty then (if p.data.isEmpty then "" else "/")
  else String.mk (stripped.takeWhile (fun c => c ≠ '/')).reverse

/-- Node `path.extname` (posix): the suffix of the basename from its last
dot, empty when there is no dot or the dot is the basename's first character
(`".."` also yields the empty string). -/
def extname (p : String) : String :=
  let revBase := (p.data.reverse.dropWhile (fun c => c = '/')).takeWhile (fun c => c ≠ '/')
  let revPref := revBase.takeWhile (fun c => c ≠ '.')
  if revPref.length = revBase.length then ""
  else if revBase.length - revPref.length - 1 = 0 then ""
  else if revBase = ['.', '.'] then ""
  else String.mk ('.' :: revPref.reverse)

/-- The archive extractor chosen by `extractJdkFile` (`@actions/tool-cache`
collaborators). -/
inductive JdkExtractor where
  | extractTar
  | extractZip
  | extract7z
deriving Repr, DecidableEq

/-- The `switch (extension)` of `extractJdkFile`. -/
def jdkDispatch (ext : String) : JdkExtractor :=
  if ext = "tar.gz" || ext = "tar" then .extractTar
  else if ext = "zip" then .extractZip
  else .extract7z

/-- The extension inferred from the file name when none is supplied:
`toolPath.endsWith('.tar.gz') ? 'tar.gz' : path.extname(toolPath).substring(1)`. -/
def inferExt (toolPath : String) : String :=
  if strEndsWith toolPath ".tar.gz" then "tar.gz"
  else strDropChars (extname toolPath) 1

/-- `extractJdkFile(toolPath, extension?)`: `extension ||= …` re-infers the
format when the argument is absent or the empty string (JavaScript falsiness),
then dispatches on it. -/
def extractJdkFile (toolPath : String) (extension : Option String) : JdkExtractor :=
  let ext := match extension with
    | some e => if e = "" then inferExt toolPath else e
    | none => inferExt toolPath
  jdkDispatch ext

/-- `getDownloadArchiveExtension()`, with `process.platform` made an explicit
argument. -/
def getDownloadArchiveExtension (platform : String) : String :=
  if platform = "win32" then "zip" else "tar.gz"

/-- `isVersionSatisfies(range, version)`: when `range` is itself a valid
version carrying build metadata, compare with `semver.compareBuild` (which
throws on an unparsable `version`); otherwise `semver.satisfies`. -/
def isVersionSatisfies (range version : String) : JsResult Bool :=
  match parseSemVer range with
  | some semRange =>
    if 0 < semRange.build.length then
      match parseSemVer version with
      | some v => .ok (compareBuildFull semRange v = .eq : Bool)
      | none => .thrown
    else .ok (satisfiesB version range)
  | none => .ok (satisfiesB version range)

/-- `avoidOldNotation`: strip a leading `1.` (legacy Java 8-style notation). -/
def avoidOldNotation (content : String) : String :=
  if strStartsWith content "1." then strDropChars content 2 else content

/-- The value of the local `version` variable of `getVersionFromFileContent`
after the range/coerce step: a JavaScript `string` or a `SemVer` object. -/
inductive VersionVal where
  | str (s : String)
  | sem (v : SemVer)
deriving Repr, DecidableEq

/-- JavaScript falsiness of `version` (`null` is the `Option.none` case): the
empty string is falsy, objects never are. -/
def VersionVal.isFalsy : VersionVal → Bool
  | .str s => s = ""
  | .sem _ => false

/-- JavaScript `version.toString()`: identity on strings, `format` on
`SemVer` objects. -/
def VersionVal.toStr : VersionVal → String
  | .str s => s
  | .sem v => semverToString v

/-- `semver.coerce(version)` on a string-or-`SemVer` value: a `SemVer`
instance is returned as-is, a string is coerced. -/
def coerceVal : VersionVal → Option SemVer
  | .sem v => some v
  | .str s => coerceString s

/-- `semver.major(v)`: `new SemVer(v).major`, which throws (`none`) on a
string that is not a valid version. -/
def majorVal : VersionVal → Option Nat
  | .sem v => some v.major
  | .str s => (parseSemVer s).map SemVer.major

/-- The generic version pattern
`/(?<version>(?<=(^|\s|-))(\d+\S*))(\s|$)/` of `getVersionFromFileContent`:
the first maximal non-space run that starts with a digit preceded by the
start of input, whitespace, or `-`.  The Boolean tracks whether the previous
character permits a match to start. -/
def findGenericToken : Bool → List Char → Option String
  | _, [] => none
  | ok, c :: tl =>
    if ok && isDigitC c then
      some (String.mk (c :: tl.takeWhile (fun d => !isSpaceJS d)))
    else findGenericToken (isSpaceJS c || c = '-') tl

/-- The `(\d+)(\.\d+)?(\.\d+)?(\+\d+)?(-ea(\.\d+)?)?$` tail of the
`.tool-versions` pattern, matched against the rest of a line. -/
def versionTailMatches (cs : List Char) : Bool :=
  let ds := cs.takeWhile isDigitC
  if ds.isEmpty then false
  else
    let r := cs.drop ds.length
    let dotNum : List Char → List Char := fun r =>
      match r with
      | '.' :: tl =>
        let ds := tl.takeWhile isDigitC
        if ds.isEmpty then r else tl.drop ds.length
      | _ => r
    let r := dotNum r
    let r := dotNum r
    let r :=
      match r with
      | '+' :: tl =>
        let ds := tl.takeWhile isDigitC
        if ds.isEmpty then r else tl.drop ds.length
      | _ => r
    let r :=
      match r with
      | '-' :: 'e' :: 'a' :: tl => dotNum tl
      | _ => r
    r.isEmpty

/-- Try the `v?` + version-tail part of the `.tool-versions` pattern at a
given suffix of the line. -/
def tryVersionAt (tail : List Char) : Option String :=
  match tail with
  | 'v' :: t2 => if versionTailMatches t2 then some (String.mk t2) else none
  | _ => if versionTailMatches tail then some (String.mk tail) else none

/-- Match one line against
`^(java\s+)(?:\S*-)?v?(?<version>…)$`: after `java` and whitespace, the
optional `\S*-` prefix is tried with the longest `\S*` first (the regex
engine's greedy backtracking), then without it. -/
def matchToolVersionLine (line : List Char) : Option String :=
  match line with
  | 'j' :: 'a' :: 'v' :: 'a' :: rest =>
    let ws := rest.takeWhile isSpaceJS
    if ws.isEmpty then none
    else
      let r := rest.drop ws.length
      let ns := r.takeWhile (fun d => !isSpaceJS d)
      let dashes := ((List.range ns.length).filter
        (fun k => ns.getD k ' ' = '-')).reverse
      match dashes.findSome? (fun k => tryVersionAt (r.drop (k + 1))) with
      | some v => some v
      | none => tryVersionAt r
  | _ => none

/-- Split into lines at the JavaScript regex line terminators `\n` and `\r`
(multiline `^`/`$` anchors match around both). -/
def splitLines (cs : List Char) : List (List Char) :=
  splitOnChar '\n' cs [] |>.flatMap (fun l => splitOnChar '\r' l [])

/-- The version token extracted by `getVersionFromFileContent`'s regular
expression: the `.tool-versions` pattern (first matching line, multiline
anchors) for that file name, the generic pattern otherwise. -/
def extractVersionToken (content : String) (versionFileName : String) : Option String :=
  if versionFileName = ".tool-versions" then
    (splitLines content.data).findSome? matchToolVersionLine
  else findGenericToken true content.data

/-- The processing `getVersionFromFileContent` applies to the extracted
token: legacy-notation rewrite, range validation of the pre-`-` prefix,
coercion fallback, the falsiness early return, and the major-only reduction
(where `semver.major` can throw). -/
def resolveVersionToken (fileContent distributionName : String)
    (distributionsOnlyMajorVersion : List String) : JsResult (Option String) :=
  let tentativeVersion := avoidOldNotation fileContent
  let rawVersion := splitDashHead tentativeVersion
  let version : Option VersionVal :=
    if validRange rawVersion then some (.str tentativeVersion)
    else (coerceString tentativeVersion).map VersionVal.sem
  match version with
  | none => .ok none
  | some v =>
    if v.isFalsy then .ok none
    else if distributionName ∈ distributionsOnlyMajorVersion then
      let coerceVersion : VersionVal :=
        match coerceVal v with
        | some s => .sem s
        | none => v
      match majorVal coerceVersion with
      | none => .thrown
      | some n => .ok (some (toString n))
    else .ok (some v.toStr)

/-- `getVersionFromFileContent(content, distributionName, versionFile)`.
`DISTRIBUTIONS_ONLY_MAJOR_VERSION` lives in `src/constants.ts`, which is not
among the given sources; modelled from the spec ("the major-only set", no
members named) as an explicit parameter. -/
def getVersionFromFileContent (content distributionName versionFile : String)
    (distributionsOnlyMajorVersion : List String) : JsResult (Option String) :=
  match extractVersionToken content (basenamePosix versionFile) with
  | none => .ok none
  | some fileContent =>
    resolveVersionToken fileContent distributionName distributionsOnlyMajorVersion

/-- `convertVersionToSemver` on the component array (`version.split('.')`
for a string input, the stringified numbers for a `number[]` input). -/
def convertVersionToSemver (versionArray : List String) : String :=
  let mainVersion := joinSep "." (versionArray.take 3)
  if versionArray.length > 3 then
    mainVersion ++ "+" ++ joinSep "." (versionArray.drop 3)
  else mainVersion

/-- `convertVersionToSemver` applied to a string input. -/
def convertVersionToSemverOfString (version : String) : String :=
  convertVersionToSemver ((splitOnChar '.' version.data []).map String.mk)

/-- `convertVersionToSemver` applied to a `number[]` input. -/
def convertVersionToSemverOfNums (version : List Nat) : String :=
  convertVersionToSemver (version.map toString)

/-- The header object built by `getGitHubHttpHeaders`: it has exactly the
`accept` field and an optional `authorization` field. -/
structure HttpHeaders where
  accept : String
  authorization : Option String
deriving Repr, DecidableEq

/-- The headers as a key/value list (absent `authorization` means no such
key). -/
def HttpHeaders.toList (h : HttpHeaders) : List (String × String) :=
  ("accept", h.accept) ::
    (match h.authorization with
     | some a => [("authorization", a)]
     | none => [])

/-- `getGitHubHttpHeaders()`, with the configured token (`core.getInput`, the
empty string when unset) made an explicit argument. -/
def getGitHubHttpHeaders (token : String) : HttpHeaders :=
  let auth := if token = "" then none else some ("token " ++ token)
  { accept := "application/vnd.github.VERSION.raw", authorization := auth }

/-!
## Helper lemmas
-/

/-- `compareBuild` ties out to equality exactly when both the precedence
comparison and the build-identifier walk do. -/
theorem compareBuildFull_eq_iff (a b : SemVer) :
    compareBuildFull a b = .eq ↔
      compareSemVer a b = .eq ∧ compareIdLoop a.build b.build = .eq := by
  unfold compareBuildFull
  cases h : compareSemVer a b <;> simp [h]

/-- Two-character prefix test, reduced to `List.take`. -/
theorem listStartsWith_pair (cs : List Char) (a b : Char) :
    listStartsWith cs [a, b] = true ↔ cs.take 2 = [a, b] := by
  match cs with
  | [] => simp [listStartsWith]
  | [c] => simp [listStartsWith]
  | c :: d :: tl => simp [listStartsWith]

/-- For any file name other than `.tool-versions` the generic pattern is
used. -/
theorem extractVersionToken_not_toolversions (content fname : String)
    (h : fname ≠ ".tool-versions") :
    extractVersionToken content fname = findGenericToken true content.data := by
  unfold extractVersionToken
  rw [if_neg h]

/-- Unfold `getVersionFromFileContent` through a generic-pattern token. -/
theorem getVersionFromFileContent_generic (content distName versionFile : String)
    (majorOnly : List String) (token : String)
    (h : basenamePosix versionFile ≠ ".tool-versions")
    (htok : findGenericToken true content.data = some token) :
    getVersionFromFileContent content distName versionFile majorOnly =
      resolveVersionToken token distName majorOnly := by
  unfold getVersionFromFileContent
  rw [extractVersionToken_not_toolversions _ _ h, htok]

/-- Resolution of the token `"1.8"` yields `"8"` for every distribution. -/
theorem resolveVersionToken_legacy8 (d : String) (L : List String) :
    resolveVersionToken "1.8" d L = .ok (some "8") := by
  have h : resolveVersionToken "1.8" d L =
      if d ∈ L then JsResult.ok (some "8") else JsResult.ok (some "8") := rfl
  rw [h, ite_self]

/-- Resolution of the token `"11.0.2"`: the full version outside the
major-only set, the major alone inside it. -/
theorem resolveVersionToken_1102 (d : String) (L : List String) :
    resolveVersionToken "11.0.2" d L =
      if d ∈ L then JsResult.ok (some "11") else JsResult.ok (some "11.0.2") := rfl

/-- `resolveVersionToken` returns `null` exactly when the legacy-stripped
token is empty, or neither range-validates (on its pre-`-` prefix) nor
coerces. -/
theorem resolveVersionToken_ok_none_iff (t d : String) (L : List String) :
    resolveVersionToken t d L = .ok none ↔
      ( avoidOldNotation t = "" ∨
        (validRange (splitDashHead ( avoidOldNotation t)) = false ∧
          coerceString ( avoidOldNotation t) = none)) := by
  unfold resolveVersionToken
  dsimp only
  by_cases hvr : validRange (splitDashHead ( avoidOldNotation t)) = true
  · rw [if_pos hvr]
    show (if (VersionVal.str ( avoidOldNotation t)).isFalsy = true then JsResult.ok none
      else _) = .ok none ↔ _
    by_cases hempty : avoidOldNotation t = ""
    · rw [if_pos (by simp [VersionVal.isFalsy, hempty])]
      simp [hempty]
    · rw [if_neg (by simp [VersionVal.isFalsy, hempty])]
      constructor
      · intro hcontra
        by_cases hm : d ∈ L
        · rw [if_pos hm] at hcontra
          revert hcontra
          split <;> simp
        · rw [if_neg hm] at hcontra
          exact absurd hcontra (by simp [VersionVal.toStr])
      · rintro (h | ⟨h, _⟩)
        · exact absurd h hempty
        · rw [hvr] at h; exact absurd h (by simp)
  · rw [if_neg hvr]
    have hvr' : validRange (splitDashHead ( avoidOldNotation t)) = false :=
      Bool.not_eq_true _ ▸ Bool.of_not_eq_true hvr
    cases hc : coerceString ( avoidOldNotation t) with
    | none => simp [hvr', hc]
    | some sv =>
      show (if (VersionVal.sem sv).isFalsy = true then JsResult.ok none else _) = .ok none ↔ _
      rw [if_neg (by simp [VersionVal.isFalsy])]
      constructor
      · intro hcontra
        by_cases hm : d ∈ L
        · rw [if_pos hm] at hcontra
          revert hcontra
          split <;> simp
        · rw [if_neg hm] at hcontra
          exact absurd hcontra (by simp [VersionVal.toStr])
      · rintro (h | ⟨_, h⟩)
        · rw [h] at hvr
          exact absurd (by decide : validRange (splitDashHead "") = true) hvr
        · exact Option.noConfusion h

/-- Outside the major-only set, `resolveVersionToken` never throws. -/
theorem resolveVersionToken_not_thrown (t d : String) (L : List String) (hd : d ∉ L) :
    resolveVersionToken t d L ≠ .thrown := by
  unfold resolveVersionToken
  dsimp only
  by_cases hvr : validRange (splitDashHead ( avoidOldNotation t)) = true
  · rw [if_pos hvr]
    show (if (VersionVal.str ( avoidOldNotation t)).isFalsy = true then JsResult.ok none
      else _) ≠ .thrown
    by_cases hf : (VersionVal.str ( avoidOldNotation t)).isFalsy = true
    · rw [if_pos hf]; simp
    · rw [if_neg hf, if_neg hd]; simp
  · rw [if_neg hvr]
    cases hc : coerceString ( avoidOldNotation t) with
    | none => simp
    | some sv =>
      show (if (VersionVal.sem sv).isFalsy = true then JsResult.ok none else _) ≠ .thrown
      by_cases hf : (VersionVal.sem sv).isFalsy = true
      · rw [if_pos hf]; simp
      · rw [if_neg hf, if_neg hd]; simp

/-- Outside the major-only set, `resolveVersionToken` returns the
legacy-stripped token verbatim when its pre-`-` prefix range-validates (null
for the empty token), and the stringified coercion otherwise. -/
theorem resolveVersionToken_no_major (t d : String) (L : List String) (hd : d ∉ L) :
    resolveVersionToken t d L =
      (if validRange (splitDashHead ( avoidOldNotation t)) = true then
        (if avoidOldNotation t = "" then JsResult.ok none
         else .ok (some ( avoidOldNotation t)))
       else .ok ((coerceString ( avoidOldNotation t)).map semverToString)) := by
  unfold resolveVersionToken
  dsimp only
  by_cases hvr : validRange (splitDashHead ( avoidOldNotation t)) = true
  · rw [if_pos hvr, if_pos hvr]
    show (if (VersionVal.str ( avoidOldNotation t)).isFalsy = true then JsResult.ok none
      else _) = _
    by_cases hempty : avoidOldNotation t = ""
    · rw [if_pos (by simp [VersionVal.isFalsy, hempty]), if_pos hempty]
    · rw [if_neg (by simp [VersionVal.isFalsy, hempty]), if_neg hempty, if_neg hd]
      rfl
  · rw [if_neg hvr, if_neg hvr]
    cases hc : coerceString ( avoidOldNotation t) with
    | none => simp
    | some sv =>
      show (if (VersionVal.sem sv).isFalsy = true then JsResult.ok none else _) = _
      rw [if_neg (by simp [VersionVal.isFalsy]), if_neg hd]
      rfl

/-!
## Claims
-/

/-- C1: counterexample.  `isVersionSatisfies("1.2.3+4", "1.2.3+04")` returns
`true` although `"1.2.3+04"` does not equal `"1.2.3+4"` exactly — their build
metadata differ (`["04"]` vs `["4"]`): `semver.compareBuild` compares fully
numeric build identifiers as numbers, so the claimed "true iff `v` equals `r`
exactly including the build metadata" fails. -/
theorem isVersionSatisfies_build_not_exact_equality :
    isVersionSatisfies "1.2.3+4" "1.2.3+04" = .ok true ∧
    "1.2.3+04" ≠ "1.2.3+4" ∧
    (parseSemVer "1.2.3+4").map SemVer.build = some ["4"] ∧
    (parseSemVer "1.2.3+04").map SemVer.build = some ["04"] := by
  refine ⟨by decide, by decide, by decide, by decide⟩

/-- C1 (amended): for every range that is a fully valid exact semantic
version carrying build metadata, `isVersionSatisfies(range, version)` returns
`true` exactly when `version` parses as a semantic version of equal
precedence whose build identifier list compares equal, identifier by
identifier, under semver identifier comparison (numeric identifiers compared
as numbers); in particular `"1.2.3+4"` matches `"1.2.3+4"` and matches
neither `"1.2.3+5"` nor `"1.2.3"`. -/
theorem isVersionSatisfies_build_exact_match (range version : String) (sr : SemVer)
    (hr : parseSemVer range = some sr) (hb : sr.build ≠ []) :
    isVersionSatisfies range version = .ok true ↔
      ∃ sv, parseSemVer version = some sv ∧
        compareSemVer sr sv = .eq ∧ compareIdLoop sr.build sv.build = .eq := by
  unfold isVersionSatisfies
  rw [hr]
  dsimp only
  rw [if_pos (List.length_pos.mpr hb)]
  cases hv : parseSemVer version with
  | none => simp
  | some sv =>
    have h1 : (JsResult.ok (decide (compareBuildFull sr sv = .eq)) = JsResult.ok true) ↔
        compareBuildFull sr sv = .eq := by simp
    rw [h1, compareBuildFull_eq_iff]
    constructor
    · rintro ⟨h2, h3⟩
      exact ⟨sv, rfl, h2, h3⟩
    · rintro ⟨sv', hsv', h2, h3⟩
      cases hsv'
      exact ⟨h2, h3⟩

/-- C1 (amended) witness: the amended theorem applied at
`range = version = "1.2.3+4"`. -/
theorem isVersionSatisfies_build_exact_match_witness :
    isVersionSatisfies "1.2.3+4" "1.2.3+4" = .ok true :=
  (isVersionSatisfies_build_exact_match "1.2.3+4" "1.2.3+4" ⟨1, 2, 3, [], ["4"]⟩
      (by decide) (by decide)).mpr
    ⟨⟨1, 2, 3, [], ["4"]⟩, by decide, by decide, by decide⟩

/-- C2: whenever the range is not a valid exact semantic version carrying
build metadata, `isVersionSatisfies(range, version)` returns exactly
`semver.satisfies(version, range)` — standard range satisfaction. -/
theorem isVersionSatisfies_standard_range (range version : String)
    (h : ∀ sr, parseSemVer range = some sr → sr.build = []) :
    isVersionSatisfies range version = .ok (satisfiesB version range) := by
  unfold isVersionSatisfies
  cases hr : parseSemVer range with
  | none => rfl
  | some sr =>
    dsimp only
    rw [h sr hr]
    simp

/-- C2 witness: `isVersionSatisfies("^1.2.0", "1.5.0")` is `true` by the
theorem (the caret range is not an exact version). -/
theorem isVersionSatisfies_standard_range_witness :
    isVersionSatisfies "^1.2.0" "1.5.0" = .ok true := by
  have h := isVersionSatisfies_standard_range "^1.2.0" "1.5.0" (fun sr hsr => by
    rw [show parseSemVer "^1.2.0" = none from by decide] at hsr
    exact Option.noConfusion hsr)
  rw [h]
  decide

/-- C3: the legacy rewrite drops the first two characters exactly when the
token starts with `1.` and is the identity otherwise; consequently
`getVersionFromFileContent` on content `"1.8"` yields `"8"` for every
distribution name and every major-only set (for any version file other than
`.tool-versions`, whose strict pattern only matches `java …` lines). -/
theorem avoidOldNotation_legacy_rewrite :
    (∀ s : String,
      (s.data.take 2 = ['1', '.'] → ( avoidOldNotation s).data = s.data.drop 2) ∧
      (s.data.take 2 ≠ ['1', '.'] → avoidOldNotation s = s)) ∧
    (∀ (distName versionFile : String) (majorOnly : List String),
      basenamePosix versionFile ≠ ".tool-versions" →
      getVersionFromFileContent "1.8" distName versionFile majorOnly = .ok (some "8")) := by
  constructor
  · intro s
    constructor
    · intro h
      unfold avoidOldNotation strStartsWith
      rw [if_pos ((listStartsWith_pair s.data '1' '.').mpr h)]
      rfl
    · intro h
      unfold avoidOldNotation strStartsWith
      rw [if_neg (fun hc => h ((listStartsWith_pair s.data '1' '.').mp hc))]
  · intro distName versionFile majorOnly h
    rw [getVersionFromFileContent_generic "1.8" distName versionFile majorOnly "1.8" h
      (by decide)]
    exact resolveVersionToken_legacy8 distName majorOnly

/-- C3 witness: the second part applied at a concrete distribution and file
name. -/
theorem avoidOldNotation_legacy_rewrite_witness :
    getVersionFromFileContent "1.8" "temurin" ".java-version" [] = .ok (some "8") :=
  avoidOldNotation_legacy_rewrite.2 "temurin" ".java-version" [] (by decide)

/-- C4: on content `"11.0.2"`, `getVersionFromFileContent` returns the major
version `"11"` for every distribution in the major-only set and the full
`"11.0.2"` for every distribution outside it. -/
theorem getVersionFromFileContent_major_only (distName versionFile : String)
    (majorOnly : List String) (h : basenamePosix versionFile ≠ ".tool-versions") :
    (distName ∈ majorOnly →
      getVersionFromFileContent "11.0.2" distName versionFile majorOnly = .ok (some "11")) ∧
    (distName ∉ majorOnly →
      getVersionFromFileContent "11.0.2" distName versionFile majorOnly =
        .ok (some "11.0.2")) := by
  rw [getVersionFromFileContent_generic "11.0.2" distName versionFile majorOnly "11.0.2" h
    (by decide)]
  rw [resolveVersionToken_1102]
  constructor
  · intro hm; rw [if_pos hm]
  · intro hm; rw [if_neg hm]

/-- C4 witness: the theorem applied inside and outside a concrete major-only
set. -/
theorem getVersionFromFileContent_major_only_witness :
    getVersionFromFileContent "11.0.2" "corretto" ".java-version" ["corretto"] =
      .ok (some "11") ∧
    getVersionFromFileContent "11.0.2" "temurin" ".java-version" ["corretto"] =
      .ok (some "11.0.2") :=
  ⟨(getVersionFromFileContent_major_only "corretto" ".java-version" ["corretto"]
      (by decide)).1 (by decide),
   (getVersionFromFileContent_major_only "temurin" ".java-version" ["corretto"]
      (by decide)).2 (by decide)⟩

/-- C5: counterexample.  Two failures of the claim: on content `"1."` a token
is extracted (`"1."`, which is even coercible, and whose stripped form `""`
range-validates) yet the function returns `null`; and on content `"1.x"` with
a major-only distribution a token is extracted and range-validates, yet the
function throws (`semver.major` on the uncoercible `"x"`) instead of
returning a string or `null`. -/
theorem getVersionFromFileContent_null_counterexample :
    (extractVersionToken "1." ".java-version" = some "1." ∧
      coerceString "1." = some ⟨1, 0, 0, [], []⟩ ∧
      validRange (splitDashHead ( avoidOldNotation "1.")) = true ∧
      getVersionFromFileContent "1." "temurin" ".java-version" [] = .ok none) ∧
    (extractVersionToken "1.x" ".java-version" = some "1.x" ∧
      validRange (splitDashHead ( avoidOldNotation "1.x")) = true ∧
      getVersionFromFileContent "1.x" "corretto" ".java-version" ["corretto"] =
        .thrown) := by
  refine ⟨⟨by decide, by decide, by decide, by decide⟩, ⟨by decide, by decide, by decide⟩⟩

/-- C5 (amended): `getVersionFromFileContent` returns `null` exactly when no
version token can be extracted by either pattern, or the extracted token
after legacy-`1.` stripping is empty, or that stripped token neither
validates as a range (on its pre-`-` prefix) nor coerces to a semantic
version; for distributions outside the major-only set every other input
yields a non-null string and the function never throws (for major-only
distributions it can throw, as the counterexample shows). -/
theorem getVersionFromFileContent_null_iff (content distName versionFile : String)
    (majorOnly : List String) :
    (getVersionFromFileContent content distName versionFile majorOnly = .ok none ↔
      (extractVersionToken content (basenamePosix versionFile) = none ∨
        ∃ token, extractVersionToken content (basenamePosix versionFile) = some token ∧
          ( avoidOldNotation token = "" ∨
            (validRange (splitDashHead ( avoidOldNotation token)) = false ∧
              coerceString ( avoidOldNotation token) = none)))) ∧
    (distName ∉ majorOnly →
      getVersionFromFileContent content distName versionFile majorOnly ≠ .thrown) := by
  constructor
  · cases hE : extractVersionToken content (basenamePosix versionFile) with
    | none =>
      unfold getVersionFromFileContent
      rw [hE]
      simp
    | some token =>
      unfold getVersionFromFileContent
      rw [hE]
      rw [resolveVersionToken_ok_none_iff]
      constructor
      · intro h
        exact Or.inr ⟨token, rfl, h⟩
      · rintro (h | ⟨token', htok', h⟩)
        · exact Option.noConfusion h
        · cases htok'
          exact h
  · intro hd
    unfold getVersionFromFileContent
    cases hE : extractVersionToken content (basenamePosix versionFile) with
    | none => simp
    | some token => exact resolveVersionToken_not_thrown token distName majorOnly hd

/-- C5 (amended) witness: the no-throw part applied at a concrete input. -/
theorem getVersionFromFileContent_null_iff_witness :
    getVersionFromFileContent "17" "temurin" ".java-version" [] ≠ .thrown :=
  (getVersionFromFileContent_null_iff "17" "temurin" ".java-version" []).2 (by decide)

/-- C6: counterexample.  On content `"1."` the extracted token is `"1."`,
legacy stripping leaves `""`, whose (pre-`-`-stripped) form is a valid range
— but the function returns `null`, not the token `""` verbatim. -/
theorem getVersionFromFileContent_verbatim_counterexample :
    extractVersionToken "1." ".java-version" = some "1." ∧
    avoidOldNotation "1." = "" ∧
    validRange (splitDashHead "") = true ∧
    getVersionFromFileContent "1." "corretto" ".java-version" [] = .ok none ∧
    (JsResult.ok (some "") : JsResult (Option String)) ≠ .ok none := by
  refine ⟨by decide, by decide, by decide, by decide, by decide⟩

/-- C6 (amended): for distributions outside the major-only set, range
validation is performed on the legacy-stripped token with everything after
the first `-` removed; if that validates, the (unstripped-of-`-`) token is
returned verbatim — except that the empty token yields `null` — and otherwise
the semver-coercion of the token (formatted, `null` when coercion fails) is
returned. -/
theorem getVersionFromFileContent_verbatim (content distName versionFile : String)
    (majorOnly : List String) (token : String)
    (hd : distName ∉ majorOnly)
    (ht : extractVersionToken content (basenamePosix versionFile) = some token) :
    getVersionFromFileContent content distName versionFile majorOnly =
      (if validRange (splitDashHead ( avoidOldNotation token)) = true then
        (if avoidOldNotation token = "" then JsResult.ok none
         else .ok (some ( avoidOldNotation token)))
       else .ok ((coerceString ( avoidOldNotation token)).map semverToString)) := by
  unfold getVersionFromFileContent
  rw [ht]
  exact resolveVersionToken_no_major token distName majorOnly hd

/-- C6 (amended) witness: the theorem applied at content `"21-ea"`, where the
stripped prefix `"21"` range-validates and the token is returned verbatim. -/
theorem getVersionFromFileContent_verbatim_witness :
    getVersionFromFileContent "21-ea" "temurin" ".java-version" [] = .ok (some "21-ea") := by
  rw [getVersionFromFileContent_verbatim "21-ea" "temurin" ".java-version" [] "21-ea"
    (by decide) (by decide)]
  decide

/-- C7: `extractJdkFile` dispatches on the archive format as a closed case
split — `tar`/`tar.gz` to the tar extractor, `zip` to the zip extractor,
everything else to the 7z fallback; the format is the explicit (non-empty)
extension argument when supplied (an empty string behaves like an absent
argument, by JavaScript falsiness) and is otherwise inferred from the file
name (`tar.gz` for a `.tar.gz` suffix, else the extension without its leading
dot). -/
theorem extractJdkFile_dispatch :
    (∀ (toolPath e : String), e ≠ "" → extractJdkFile toolPath (some e) = jdkDispatch e) ∧
    (∀ toolPath : String, extractJdkFile toolPath none = jdkDispatch (inferExt toolPath)) ∧
    (∀ toolPath : String,
      extractJdkFile toolPath (some "") = jdkDispatch (inferExt toolPath)) ∧
    (jdkDispatch "tar" = .extractTar ∧ jdkDispatch "tar.gz" = .extractTar ∧
      jdkDispatch "zip" = .extractZip) ∧
    (∀ e : String, e ≠ "tar" → e ≠ "tar.gz" → e ≠ "zip" → jdkDispatch e = .extract7z) ∧
    (∀ toolPath : String, inferExt toolPath =
      if strEndsWith toolPath ".tar.gz" = true then "tar.gz"
      else strDropChars (extname toolPath) 1) := by
  refine ⟨?_, fun _ => rfl, fun _ => rfl, ?_, ?_, fun _ => rfl⟩
  · intro toolPath e he
    unfold extractJdkFile
    dsimp only
    rw [if_neg he]
  · exact ⟨by decide, by decide, by decide⟩
  · intro e h1 h2 h3
    unfold jdkDispatch
    rw [if_neg (by simp [h1, h2]), if_neg (by simp [h3])]

/-- C7 witness: the dispatch applied at concrete archives. -/
theorem extractJdkFile_dispatch_witness :
    extractJdkFile "jdk.zip" (some "zip") = .extractZip ∧
    extractJdkFile "jdk.tar.gz" none = .extractTar ∧
    extractJdkFile "jdk.msi" (some "msi") = .extract7z := by
  refine ⟨?_, ?_, ?_⟩
  · rw [extractJdkFile_dispatch.1 "jdk.zip" "zip" (by decide)]
    decide
  · rw [extractJdkFile_dispatch.2.1 "jdk.tar.gz"]
    decide
  · rw [extractJdkFile_dispatch.1 "jdk.msi" "msi" (by decide)]
    decide

/-- C8: `getDownloadArchiveExtension` returns `zip` exactly on the `win32`
platform and `tar.gz` on every other platform; the platform is its only
input. -/
theorem getDownloadArchiveExtension_platform (platform : String) :
    (getDownloadArchiveExtension platform = "zip" ↔ platform = "win32") ∧
    (platform ≠ "win32" → getDownloadArchiveExtension platform = "tar.gz") := by
  unfold getDownloadArchiveExtension
  constructor
  · constructor
    · intro hz
      by_contra hne
      rw [if_neg hne] at hz
      exact absurd hz (by decide)
    · intro hw
      rw [if_pos hw]
  · intro hne
    rw [if_neg hne]

/-- C8 witness: the theorem applied on Windows and on Linux. -/
theorem getDownloadArchiveExtension_platform_witness :
    getDownloadArchiveExtension "win32" = "zip" ∧
    getDownloadArchiveExtension "linux" = "tar.gz" :=
  ⟨(getDownloadArchiveExtension_platform "win32").1.mpr rfl,
   (getDownloadArchiveExtension_platform "linux").2 (by decide)⟩

/-- C9: the headers always carry
`accept: application/vnd.github.VERSION.raw`; the `authorization` header is
`token <t>` exactly when the configured token `t` is non-empty and is absent
otherwise; no other headers exist. -/
theorem getGitHubHttpHeaders_shape (token : String) :
    (getGitHubHttpHeaders token).accept = "application/vnd.github.VERSION.raw" ∧
    ((getGitHubHttpHeaders token).authorization =
      if token = "" then none else some ("token " ++ token)) ∧
    HttpHeaders.toList (getGitHubHttpHeaders token) =
      (if token = "" then [("accept", "application/vnd.github.VERSION.raw")]
       else [("accept", "application/vnd.github.VERSION.raw"),
         ("authorization", "token " ++ token)]) := by
  refine ⟨rfl, rfl, ?_⟩
  by_cases h : token = "" <;>
    simp [getGitHubHttpHeaders, HttpHeaders.toList, h]

/-- C10: `convertVersionToSemver` joins the first three components with `.`;
with more than three components the rest is appended after a single `+`
(joined with `.`), and with at most three the result is exactly the
components joined with `.` (no padding); e.g. `12.10.2.1.1` becomes
`12.10.2+1.1`. -/
theorem convertVersionToSemver_shape :
    (∀ parts : List String, convertVersionToSemver parts =
      if parts.length > 3 then
        joinSep "." (parts.take 3) ++ "+" ++ joinSep "." (parts.drop 3)
      else joinSep "." parts) ∧
    convertVersionToSemverOfString "12.10.2.1.1" = "12.10.2+1.1" ∧
    convertVersionToSemverOfString "1.2" = "1.2" ∧
    convertVersionToSemverOfNums [12, 10, 2, 1, 1] = "12.10.2+1.1" := by
  refine ⟨?_, by decide, by decide, by decide⟩
  intro parts
  unfold convertVersionToSemver
  by_cases h : parts.length > 3
  · rw [if_pos h, if_pos h]
  · rw [if_neg h, if_neg h]
    rw [List.take_of_length_le (by omega)]

end SetupJava
